import Mathlib

/-!
# Verification of the production repository's manufacturing core

Shallow embedding of the manufacturing-order / FEFO-allocation core of the
repository (modules/production.py, modules/inventory.py, modules/bom.py and the
Streamlit page glue).  Quantities are rationals (the source stores decimals),
dates are day ordinals (`Nat`), SQL `NULL` dates are `Option.none`.
MySQL `ORDER BY expired_date ASC` places `NULL` values first; the embedding of
`get_stock_by_batch` mirrors that.
-/

namespace Production

/-- Quantities: the source stores decimal quantities; we embed them as `ℚ`. -/
abbrev Qty := ℚ

/-- One `inventory_histories` row (an inventory lot / ledger entry). -/
structure Lot where
  id : Nat
  productId : Nat
  warehouseId : Nat
  batchNo : String
  quantity : Qty
  remain : Qty
  expiredDate : Option Nat
  deleteFlag : Bool
  deriving Repr, DecidableEq

/-- The `WHERE` clause shared by the stock queries:
`product_id = %s AND warehouse_id = %s AND remain > 0 AND delete_flag = 0`. -/
def lotCond (productId warehouseId : Nat) (l : Lot) : Bool :=
  l.productId == productId && l.warehouseId == warehouseId
    && decide (0 < l.remain) && !l.deleteFlag

/-- The rows `get_stock_by_batch` would aggregate: lots of the given product and
warehouse with `remain > 0` and `delete_flag = 0`. -/
def stockRows (ledger : List Lot) (productId warehouseId : Nat) : List Lot :=
  ledger.filter (lotCond productId warehouseId)

/-- Total available stock: sum of `remain` over the rows selected by
`stockRows` (what `get_stock_balance` computes for one warehouse). -/
def totalAvailable (ledger : List Lot) (productId warehouseId : Nat) : Qty :=
  ((stockRows ledger productId warehouseId).map Lot.remain).sum

/-- The `CASE` expression classifying expiry in `get_stock_by_batch`.
SQL comparisons with a `NULL` date are not true, so a `NULL` date falls to the
`ELSE 'OK'` branch.  `today` stands for `CURDATE()`. -/
def expiryStatusOf (today : Nat) : Option Nat → String
  | none => "OK"
  | some d =>
      if d < today then "EXPIRED"
      else if d ≤ today + 7 then "CRITICAL"
      else if d ≤ today + 30 then "WARNING"
      else "OK"

/-- One result row of `get_stock_by_batch`: a batch with its aggregated
available quantity. -/
structure BatchStock where
  batch_no : String
  available_qty : Qty
  expired_date : Option Nat
  expiry_status : String
  deriving Repr, DecidableEq

/-- Does lot `x` fall into the same `GROUP BY batch_no, expired_date` group
as lot `l`? -/
def sameGroup (l x : Lot) : Bool :=
  x.batchNo == l.batchNo && x.expiredDate == l.expiredDate

/-- Worker for `groupStock`; the fuel argument (an upper bound on the list
length) makes the recursion structural, so the function reduces in the
kernel. -/
def groupStockAux (today : Nat) : Nat → List Lot → List BatchStock
  | _, [] => []
  | 0, _ :: _ => []
  | fuel + 1, l :: rest =>
      ⟨l.batchNo,
       l.remain + ((rest.filter (sameGroup l)).map Lot.remain).sum,
       l.expiredDate,
       expiryStatusOf today l.expiredDate⟩
        :: groupStockAux today fuel (rest.filter fun x => !sameGroup l x)

/-- `GROUP BY batch_no, expired_date` with `SUM(remain)`, on the rows selected
by `stockRows` (order of groups is irrelevant: the result is sorted after). -/
def groupStock (today : Nat) (rows : List Lot) : List BatchStock :=
  groupStockAux today rows.length rows

/-- Lexicographic `≤` on character lists, comparing code points: the order a
SQL binary collation gives to `ORDER BY batch_no ASC`. -/
def charsLeB : List Char → List Char → Bool
  | [], _ => true
  | _ :: _, [] => false
  | a :: as, b :: bs =>
      if a.toNat < b.toNat then true
      else if b.toNat < a.toNat then false
      else charsLeB as bs

/-- String comparison used by the `ORDER BY` embeddings. -/
def strLeB (a b : String) : Bool :=
  charsLeB a.data b.data

def charsLeB_total : ∀ as bs, charsLeB as bs = true ∨ charsLeB bs as = true
  | [], _ => Or.inl rfl
  | _ :: _, [] => Or.inr rfl
  | a :: as, b :: bs => by
      rcases Nat.lt_trichotomy a.toNat b.toNat with h | h | h
      · exact Or.inl (by simp [charsLeB, h])
      · rcases charsLeB_total as bs with ih | ih
        · exact Or.inl (by simp [charsLeB, h, ih])
        · exact Or.inr (by simp [charsLeB, h.symm, ih])
      · exact Or.inr (by simp [charsLeB, h])

def charsLeB_trans : ∀ as bs cs, charsLeB as bs = true → charsLeB bs cs = true →
    charsLeB as cs = true
  | [], _, _ => by intro _ _; rfl
  | _ :: _, [], _ => by intro h _; simp [charsLeB] at h
  | _ :: _, _ :: _, [] => by intro _ h; simp [charsLeB] at h
  | a :: as, b :: bs, c :: cs => by
      intro hab hbc
      simp only [charsLeB] at hab hbc ⊢
      rcases Nat.lt_trichotomy a.toNat b.toNat with h1 | h1 | h1
      · rcases Nat.lt_trichotomy b.toNat c.toNat with h3 | h3 | h3
        · simp [show a.toNat < c.toNat by omega]
        · simp [show a.toNat < c.toNat by omega]
        · simp [show ¬ b.toNat < c.toNat by omega, h3] at hbc
      · rcases Nat.lt_trichotomy b.toNat c.toNat with h3 | h3 | h3
        · simp [show a.toNat < c.toNat by omega]
        · simp only [if_neg (show ¬ a.toNat < b.toNat by omega),
            if_neg (show ¬ b.toNat < a.toNat by omega)] at hab
          simp only [if_neg (show ¬ b.toNat < c.toNat by omega),
            if_neg (show ¬ c.toNat < b.toNat by omega)] at hbc
          simp only [if_neg (show ¬ a.toNat < c.toNat by omega),
            if_neg (show ¬ c.toNat < a.toNat by omega)]
          exact charsLeB_trans as bs cs hab hbc
        · simp [show ¬ b.toNat < c.toNat by omega, h3] at hbc
      · simp [show ¬ a.toNat < b.toNat by omega, h1] at hab

/-- Sort key for `ORDER BY expired_date ASC` under MySQL semantics: a `NULL`
expiry sorts before every non-`NULL` date in ascending order, so `none ↦ 0`
and `some d ↦ d + 1`. -/
def mysqlAscKey : Option Nat → Nat
  | none => 0
  | some d => d + 1

/-- The FEFO row order produced by `ORDER BY expired_date ASC, batch_no ASC`:
expiry first (MySQL ascending, `NULL` first), then `batch_no`. -/
def batchLE (a b : BatchStock) : Prop :=
  mysqlAscKey a.expired_date < mysqlAscKey b.expired_date ∨
    (mysqlAscKey a.expired_date = mysqlAscKey b.expired_date ∧
      strLeB a.batch_no b.batch_no = true)

instance : DecidableRel batchLE := fun _ _ =>
  inferInstanceAs (Decidable (_ ∨ _))

instance : IsTotal BatchStock batchLE := by
  constructor
  intro a b
  rcases Nat.lt_trichotomy (mysqlAscKey a.expired_date) (mysqlAscKey b.expired_date)
    with h | h | h
  · exact Or.inl (Or.inl h)
  · rcases charsLeB_total a.batch_no.data b.batch_no.data with hs | hs
    · exact Or.inl (Or.inr ⟨h, hs⟩)
    · exact Or.inr (Or.inr ⟨h.symm, hs⟩)
  · exact Or.inr (Or.inl h)

instance : IsTrans BatchStock batchLE := by
  constructor
  intro _ _ _ hab hbc
  rcases hab with h1 | ⟨h1, hs1⟩
  · rcases hbc with h2 | ⟨h2, _⟩
    · exact Or.inl (h1.trans h2)
    · exact Or.inl (h2 ▸ h1)
  · rcases hbc with h2 | ⟨h2, hs2⟩
    · exact Or.inl (h1 ▸ h2)
    · exact Or.inr ⟨h1.trans h2, charsLeB_trans _ _ _ hs1 hs2⟩

/-- `InventoryManager.get_stock_by_batch`: per-batch available stock of a
product in a warehouse, in FEFO order. -/
def get_stock_by_batch (ledger : List Lot) (productId warehouseId today : Nat) :
    List BatchStock :=
  List.insertionSort batchLE (groupStock today (stockRows ledger productId warehouseId))

/-- One row of the `preview_fefo_issue` result. -/
structure SelectedBatch where
  batch_no : String
  quantity : Qty
  expired_date : Option Nat
  expiry_status : String
  deriving Repr, DecidableEq

/-- The batch-walking loop of `preview_fefo_issue`: stop when nothing remains
to cover, otherwise take `min(remaining_qty, available_qty)` from the next
batch. -/
def previewLoop (remaining : Qty) : List BatchStock → List SelectedBatch
  | [] => []
  | b :: rest =>
      if remaining ≤ 0 then []
      else
        let takeQty := min remaining b.available_qty
        ⟨b.batch_no, takeQty, b.expired_date, b.expiry_status⟩
          :: previewLoop (remaining - takeQty) rest

/-- `InventoryManager.preview_fefo_issue`: dry-run FEFO selection; returns an
empty result when no stock row exists, otherwise walks the FEFO-ordered
batches. -/
def preview_fefo_issue (ledger : List Lot) (productId : Nat) (quantity : Qty)
    (warehouseId today : Nat) : List SelectedBatch :=
  let batches := get_stock_by_batch ledger productId warehouseId today
  if batches.isEmpty then [] else previewLoop quantity batches

/-- Sum of the quantities of a FEFO preview selection. -/
def selectionTotal (sel : List SelectedBatch) : Qty :=
  (sel.map SelectedBatch.quantity).sum

/-- `l'` is `l` with the same identity and an `remain` that has only been
decremented. -/
def LotShrink (lotAfter lotBefore : Lot) : Prop :=
  lotAfter.remain ≤ lotBefore.remain ∧
    lotAfter = { lotBefore with remain := lotAfter.remain }

/-! ## Order state machine data model -/

/-- `manufacturing_orders.status` values used by the application. -/
inductive OrderStatus
  | CONFIRMED | IN_PROGRESS | COMPLETED | CANCELLED
  deriving Repr, DecidableEq

/-- `bom_headers.bom_type` values. -/
inductive BomType
  | KITTING | CUTTING | REPACKING
  deriving Repr, DecidableEq

/-- `manufacturing_order_materials.status` values. -/
inductive ReqStatus
  | PENDING | ISSUED
  deriving Repr, DecidableEq

/-- One `manufacturing_orders` row (joined with its BOM header's type, as
`get_order_details` does). -/
structure OrderRow where
  id : Nat
  bomHeaderId : Nat
  productId : Nat
  plannedQty : Qty
  producedQty : Qty
  warehouseId : Nat
  targetWarehouseId : Nat
  bomType : BomType
  status : OrderStatus
  deriving Repr, DecidableEq

/-- One `manufacturing_order_materials` row. -/
structure MaterialRow where
  orderId : Nat
  materialId : Nat
  requiredQty : Qty
  issuedQty : Qty
  status : ReqStatus
  warehouseId : Nat
  deriving Repr, DecidableEq

/-- One `material_issue_details` row: which inventory lot satisfied how much
of which material of which order. -/
structure IssueDetailRow where
  orderId : Nat
  materialId : Nat
  inventoryHistoryId : Nat
  quantity : Qty
  deriving Repr, DecidableEq

/-- One `production_receipts` row. -/
structure ReceiptRow where
  orderId : Nat
  productId : Nat
  quantity : Qty
  batchNo : String
  deriving Repr, DecidableEq

/-- The persistent state the manufacturing core reads and writes. -/
structure DB where
  lots : List Lot
  orders : List OrderRow
  materials : List MaterialRow
  issueDetails : List IssueDetailRow
  receipts : List ReceiptRow
  deriving Repr, DecidableEq

/-- `SELECT ... FROM manufacturing_orders WHERE id = %s` (`get_order_details`). -/
def findOrder (db : DB) (orderId : Nat) : Option OrderRow :=
  db.orders.find? fun o => o.id == orderId

/-- `get_order_materials`: the material rows of one order. -/
def get_order_materials (db : DB) (orderId : Nat) : List MaterialRow :=
  db.materials.filter fun m => m.orderId == orderId

/-! ## BOM explosion -/

/-- One `bom_details` row. -/
structure BomLine where
  materialId : Nat
  quantity : Qty
  scrapRate : Qty
  deriving Repr, DecidableEq

/-- `ProductionManager.calculate_material_requirements`: the availability
preview's requirement list, computing
`d.quantity * %s * (1 + d.scrap_rate/100)` per BOM line. -/
def calculate_material_requirements (bom : List BomLine) (quantity : Qty) :
    List (Nat × Qty) :=
  bom.map fun d => (d.materialId, d.quantity * quantity * (1 + d.scrapRate / 100))

/-- `ProductionManager.create_order`: inserts the order row with status
`'CONFIRMED'` and one material row per BOM line with
`required_qty = d.quantity * :planned_qty * (1 + d.scrap_rate/100)`;
`issued_qty` and `status` take the table defaults `0` and `PENDING`.
`newOrderId` stands for the auto-increment id the insert returns, and
`bomType` for the joined BOM header's type. -/
def create_order (db : DB) (newOrderId : Nat) (bom : List BomLine)
    (bomHeaderId productId : Nat) (plannedQty : Qty) (bomType : BomType)
    (warehouseId targetWarehouseId : Nat) : DB :=
  { db with
      orders := db.orders ++
        [⟨newOrderId, bomHeaderId, productId, plannedQty, 0, warehouseId,
          targetWarehouseId, bomType, .CONFIRMED⟩],
      materials := db.materials ++ bom.map fun d =>
        ⟨newOrderId, d.materialId, d.quantity * plannedQty * (1 + d.scrapRate / 100),
         0, .PENDING, warehouseId⟩ }

/-! ## FEFO allocation (stored procedure, modelled from the spec) -/

/-- Errors of the embedded commands. -/
inductive PError
  | insufficientStock | notFound
  deriving Repr, DecidableEq

/-- One consumption taken from a lot during an allocation. -/
structure Consumption where
  lotId : Nat
  qty : Qty
  deriving Repr, DecidableEq

/-- Spec sort key for expiry: ascending by date with null expiry sorting
last. -/
def expLastKey : Option Nat → Nat × Nat
  | none => (1, 0)
  | some d => (0, d)

/-- Lexicographic strict order on `Nat × Nat`. -/
def keyLt (x y : Nat × Nat) : Prop :=
  x.1 < y.1 ∨ (x.1 = y.1 ∧ x.2 < y.2)

instance : DecidableRel keyLt := fun _ _ =>
  inferInstanceAs (Decidable (_ ∨ _))

def keyLt_trichotomy (x y : Nat × Nat) : keyLt x y ∨ x = y ∨ keyLt y x := by
  rcases x with ⟨a, b⟩; rcases y with ⟨c, d⟩
  simp only [keyLt, Prod.mk.injEq]
  omega

def keyLt_trans {x y z : Nat × Nat} : keyLt x y → keyLt y z → keyLt x z := by
  rcases x with ⟨a, b⟩; rcases y with ⟨c, d⟩; rcases z with ⟨e, f⟩
  simp only [keyLt]
  omega

/-- FEFO order on whole lots, per the spec: ascending `(expiryDate, batchNo)`
with null expiry last. -/
def lotFefoLE (a b : Lot) : Prop :=
  keyLt (expLastKey a.expiredDate) (expLastKey b.expiredDate) ∨
    (expLastKey a.expiredDate = expLastKey b.expiredDate ∧
      strLeB a.batchNo b.batchNo = true)

instance : DecidableRel lotFefoLE := fun _ _ =>
  inferInstanceAs (Decidable (_ ∨ _))

instance : IsTotal Lot lotFefoLE := by
  constructor
  intro a b
  rcases keyLt_trichotomy (expLastKey a.expiredDate) (expLastKey b.expiredDate)
    with h | h | h
  · exact Or.inl (Or.inl h)
  · rcases charsLeB_total a.batchNo.data b.batchNo.data with hs | hs
    · exact Or.inl (Or.inr ⟨h, hs⟩)
    · exact Or.inr (Or.inr ⟨h.symm, hs⟩)
  · exact Or.inr (Or.inl h)

instance : IsTrans Lot lotFefoLE := by
  constructor
  intro _ _ _ hab hbc
  rcases hab with h1 | ⟨h1, hs1⟩
  · rcases hbc with h2 | ⟨h2, _⟩
    · exact Or.inl (keyLt_trans h1 h2)
    · exact Or.inl (h2 ▸ h1)
  · rcases hbc with h2 | ⟨h2, hs2⟩
    · exact Or.inl (h1 ▸ h2)
    · exact Or.inr ⟨h1.trans h2, charsLeB_trans _ _ _ hs1 hs2⟩

/-- The FEFO walk of the spec: at each lot take `min(remainingNeeded,
lot.remain)`, stop when nothing is needed; returns the consumption list and
the unmet remainder. -/
def fefoWalk (needed : Qty) : List Lot → List Consumption × Qty
  | [] => ([], needed)
  | l :: rest =>
      if needed ≤ 0 then ([], needed)
      else
        let take := min needed l.remain
        let result := fefoWalk (needed - take) rest
        (⟨l.id, take⟩ :: result.1, result.2)

/-- `UPDATE inventory_histories SET remain = remain - qty WHERE id = lotId`,
applied for each consumption. -/
def applyConsumptions (lots : List Lot) (cs : List Consumption) : List Lot :=
  cs.foldl
    (fun acc c => acc.map fun l =>
      if l.id = c.lotId then { l with remain := l.remain - c.qty } else l)
    lots

/-- Modelled from the spec: the MySQL stored procedure `sp_issue_material_fefo`
called by `ProductionManager.issue_materials` is not part of the repository
(only the `CALL` site is).  §4.3 of the spec defines its contract: fetch the
lots of `(materialId, warehouseId)` with `remain > 0` and not soft-deleted,
sort ascending by `(expiryDate, batchNo)` with null expiry last, take
`min(remainingNeeded, lot.remain)` from each lot in order, decrement the
lot's `remain`, and fail with `InsufficientStockError` (rolling back the
partial decrements) when the lots are exhausted while `remainingNeeded > 0`. -/
def sp_issue_material_fefo (lots : List Lot) (materialId : Nat) (quantity : Qty)
    (warehouseId : Nat) : Except PError (List Lot × List Consumption) :=
  let cands := List.insertionSort lotFefoLE (stockRows lots materialId warehouseId)
  let walk := fefoWalk quantity cands
  if 0 < walk.2 then .error .insufficientStock
  else .ok (applyConsumptions lots walk.1, walk.1)

/-! ## issue_materials / complete_production / update_order_status -/

/-- The requirement loop of `issue_materials`: for each material row with
`required_qty - issued_qty > 0`, call the FEFO procedure; the first failure
aborts the whole call (the surrounding transaction is rolled back). -/
def issueLoop (warehouseId : Nat) (lots : List Lot) :
    List MaterialRow → Except PError (List Lot × List IssueDetailRow)
  | [] => .ok (lots, [])
  | m :: rest =>
      let remaining := m.requiredQty - m.issuedQty
      if 0 < remaining then
        match sp_issue_material_fefo lots m.materialId remaining warehouseId with
        | .error e => .error e
        | .ok (lots', cs) =>
            match issueLoop warehouseId lots' rest with
            | .error e => .error e
            | .ok (lotsF, ds) =>
                .ok (lotsF,
                  cs.map (fun c => ⟨m.orderId, m.materialId, c.lotId, c.qty⟩) ++ ds)
      else issueLoop warehouseId lots rest

/-- `ProductionManager.issue_materials`: no order-status precondition is
checked; every pending requirement is delegated to the FEFO procedure; then
`UPDATE manufacturing_order_materials SET issued_qty = required_qty,
status = 'ISSUED' WHERE manufacturing_order_id = :order_id` runs
unconditionally over all material rows of the order.  The order's status is
not touched. -/
def issue_materials (db : DB) (orderId : Nat) :
    Except PError (DB × List IssueDetailRow) :=
  match findOrder db orderId with
  | none => .error .notFound
  | some o =>
      match issueLoop o.warehouseId db.lots (get_order_materials db orderId) with
      | .error e => .error e
      | .ok (lots', ds) =>
          .ok ({ db with
                  lots := lots',
                  issueDetails := db.issueDetails ++ ds,
                  materials := db.materials.map fun m =>
                    if m.orderId = orderId then
                      { m with issuedQty := m.requiredQty, status := .ISSUED }
                    else m },
                ds)

/-- The transaction wrapper around `issue_materials`: on any error the
transaction is rolled back, leaving the state exactly as before the call. -/
def issue_materials_tx (db : DB) (orderId : Nat) :
    DB × Except PError (List IssueDetailRow) :=
  match issue_materials db orderId with
  | .ok (db', r) => (db', .ok r)
  | .error e => (db, .error e)

/-- SQL `MIN` over a list of dates: `NULL` on the empty set. -/
def sqlMin : List Nat → Option Nat
  | [] => none
  | x :: xs =>
      match sqlMin xs with
      | none => some x
      | some m => some (min x m)

/-- The non-`NULL` expiry dates of the lots consumed for one order, through the
join `material_issue_details mid JOIN inventory_histories ih ON
ih.id = mid.inventory_history_id`. -/
def consumedExpiries (db : DB) (orderId : Nat) : List Nat :=
  (db.issueDetails.filter fun d => d.orderId == orderId).filterMap
    fun d => (db.lots.find? fun l => l.id == d.inventoryHistoryId).bind Lot.expiredDate

/-- The expiry inherited by a kitting order's output:
`SELECT MIN(ih.expired_date) FROM material_issue_details mid JOIN
inventory_histories ih ON ih.id = mid.inventory_history_id WHERE
mid.manufacturing_order_id = :order_id AND ih.expired_date IS NOT NULL`. -/
def kitMinExpiry (db : DB) (orderId : Nat) : Option Nat :=
  sqlMin (consumedExpiries db orderId)

/-- `ProductionManager.complete_production`: no status and no quantity-range
check; inserts one `production_receipts` row and one
`'stockInProduction'` inventory lot with `quantity = remain = produced_qty`
and, for KITTING orders only, the inherited minimum expiry (`NULL` for the
other types); then sets the order's `produced_qty` and `status = 'COMPLETED'`.
`newLotId` stands for the new inventory row's auto-increment id. -/
def complete_production (db : DB) (orderId : Nat) (producedQty : Qty)
    (batchNo : String) (newLotId : Nat) :
    Except PError (DB × ReceiptRow) :=
  match findOrder db orderId with
  | none => .error .notFound
  | some o =>
      let expiry : Option Nat :=
        if o.bomType = .KITTING then kitMinExpiry db orderId else none
      let receipt : ReceiptRow := ⟨orderId, o.productId, producedQty, batchNo⟩
      let newLot : Lot :=
        ⟨newLotId, o.productId, o.targetWarehouseId, batchNo, producedQty,
         producedQty, expiry, false⟩
      .ok ({ db with
              receipts := db.receipts ++ [receipt],
              lots := db.lots ++ [newLot],
              orders := db.orders.map fun x =>
                if x.id = orderId then
                  { x with producedQty := producedQty, status := .COMPLETED }
                else x },
            receipt)

/-- `ProductionManager.update_order_status`: one unconditional
`UPDATE manufacturing_orders SET status = :status WHERE id = :order_id`. -/
def update_order_status (db : DB) (orderId : Nat) (newStatus : OrderStatus) : DB :=
  { db with
      orders := db.orders.map fun x =>
        if x.id = orderId then { x with status := newStatus } else x }

/-- The status of one order in the state, if present. -/
def orderStatus (db : DB) (orderId : Nat) : Option OrderStatus :=
  (findOrder db orderId).map OrderRow.status

/-! ## Number generation -/

/-- `datetime.now().strftime('%Y%m%d%H%M%S')`: the decimal rendering of the
current second-resolution timestamp. -/
def formatTimestamp (now : Nat) : List Char :=
  ((Nat.digits 10 now).reverse).map Nat.digitChar

/-- `ProductionManager._generate_order_number`: `f"MO-{timestamp}"`.
`now` is the wall clock read at second resolution; `callId` distinguishes the
generation call and is unused — the source derives the number from the clock
alone. -/
def generate_order_number (now callId : Nat) : List Char :=
  match callId with
  | _ => 'M' :: 'O' :: '-' :: formatTimestamp now

/-- `ProductionManager._generate_issue_number`: `f"MI-{timestamp}"`. -/
def generate_issue_number (now callId : Nat) : List Char :=
  match callId with
  | _ => 'M' :: 'I' :: '-' :: formatTimestamp now

/-- `ProductionManager._generate_receipt_number`: `f"PR-{timestamp}"`. -/
def generate_receipt_number (now callId : Nat) : List Char :=
  match callId with
  | _ => 'P' :: 'R' :: '-' :: formatTimestamp now

/-! ## Invariant and reachability for the requirement bound -/

/-- `0 ≤ issued_qty ≤ required_qty` for every material requirement row. -/
def Inv (db : DB) : Prop :=
  ∀ m ∈ db.materials, 0 ≤ m.issuedQty ∧ m.issuedQty ≤ m.requiredQty

/-- One mutating command of the core.  `create` carries the input bounds the
pages enforce (BOM line quantity `≥ 0.0001 > 0`, scrap rate in `[0,100]`,
planned quantity `≥ 1 > 0`), weakened to non-negativity. -/
inductive Step : DB → DB → Prop
  | create (db : DB) (newOrderId : Nat) (bom : List BomLine)
      (bomHeaderId productId : Nat) (plannedQty : Qty) (bomType : BomType)
      (warehouseId targetWarehouseId : Nat)
      (hbom : ∀ d ∈ bom, 0 ≤ d.quantity ∧ 0 ≤ d.scrapRate) (hq : 0 ≤ plannedQty) :
      Step db (create_order db newOrderId bom bomHeaderId productId plannedQty
        bomType warehouseId targetWarehouseId)
  | issue (db : DB) (orderId : Nat) :
      Step db (issue_materials_tx db orderId).1
  | complete (db : DB) (orderId : Nat) (producedQty : Qty) (batchNo : String)
      (newLotId : Nat) (db' : DB) (r : ReceiptRow)
      (h : complete_production db orderId producedQty batchNo newLotId = .ok (db', r)) :
      Step db db'
  | setStatus (db : DB) (orderId : Nat) (s : OrderStatus) :
      Step db (update_order_status db orderId s)

/-- States reachable from `start` by the core's commands. -/
inductive ReachableFrom (start : DB) : DB → Prop
  | refl : ReachableFrom start start
  | step {db db' : DB} : ReachableFrom start db → Step db db' → ReachableFrom start db'

/-! ## Claim-side ordering and concrete fixtures -/

/-- The batch order the claim asserts: ascending `(expiryDate, batchNo)` with
null expiry sorting last (the spec's reading). -/
def specNullsLastLE (a b : BatchStock) : Prop :=
  keyLt (expLastKey a.expired_date) (expLastKey b.expired_date) ∨
    (expLastKey a.expired_date = expLastKey b.expired_date ∧
      strLeB a.batch_no b.batch_no = true)

instance : DecidableRel specNullsLastLE := fun _ _ =>
  inferInstanceAs (Decidable (_ ∨ _))

/-- Lot `A(expiry day 110, remain 5)` of the claimed FEFO example. -/
def c4lotA : Lot := ⟨1, 7, 9, "A", 5, 5, some 110, false⟩

/-- Lot `B(expiry day 201, remain 10)` of the claimed FEFO example. -/
def c4lotB : Lot := ⟨2, 7, 9, "B", 10, 10, some 201, false⟩

/-- A lot with no expiry date. -/
def c4lotN : Lot := ⟨3, 7, 9, "N", 4, 4, none, false⟩

/-- A state with one confirmed order whose single requirement (10 of
material 7) exceeds the available stock (4). -/
def insufficientDB : DB :=
  { lots := [⟨1, 7, 9, "L1", 4, 4, some 100, false⟩],
    orders := [⟨1, 11, 20, 2, 0, 9, 9, .KITTING, .CONFIRMED⟩],
    materials := [⟨1, 7, 10, 0, .PENDING, 9⟩],
    issueDetails := [], receipts := [] }

/-- A state with a COMPLETED order that still has a pending requirement and
ample stock. -/
def completedPendingDB : DB :=
  { lots := [⟨1, 7, 9, "L1", 10, 10, some 100, false⟩],
    orders := [⟨1, 11, 20, 2, 0, 9, 9, .KITTING, .COMPLETED⟩],
    materials := [⟨1, 7, 5, 0, .PENDING, 9⟩],
    issueDetails := [], receipts := [] }

/-- A second copy of `completedPendingDB` dedicated to the amended claim's
witness. -/
def issueWitnessDB : DB :=
  { lots := [⟨1, 7, 9, "L1", 10, 10, some 100, false⟩],
    orders := [⟨1, 11, 20, 2, 0, 9, 9, .KITTING, .COMPLETED⟩],
    materials := [⟨1, 7, 5, 0, .PENDING, 9⟩],
    issueDetails := [], receipts := [] }

/-- A state with one in-progress order of planned quantity 10. -/
def inProgressDB : DB :=
  { lots := [],
    orders := [⟨1, 11, 20, 10, 0, 9, 9, .CUTTING, .IN_PROGRESS⟩],
    materials := [], issueDetails := [], receipts := [] }

/-- A second copy of `inProgressDB` dedicated to the amended claim's
witness. -/
def completeWitnessDB : DB :=
  { lots := [],
    orders := [⟨1, 11, 20, 10, 0, 9, 9, .CUTTING, .IN_PROGRESS⟩],
    materials := [], issueDetails := [], receipts := [] }

/-- A kitting order whose consumed lots carry expiries
`{day 300, NULL, day 215}`. -/
def kittingDB : DB :=
  { lots := [⟨1, 7, 9, "M1", 5, 0, some 300, false⟩,
             ⟨2, 8, 9, "M2", 5, 0, none, false⟩,
             ⟨3, 9, 9, "M3", 5, 0, some 215, false⟩],
    orders := [⟨1, 11, 20, 10, 0, 9, 9, .KITTING, .IN_PROGRESS⟩],
    materials := [],
    issueDetails := [⟨1, 7, 1, 5⟩, ⟨1, 8, 2, 5⟩, ⟨1, 9, 3, 5⟩],
    receipts := [] }

/-- A state with one COMPLETED order. -/
def completedDB : DB :=
  { lots := [],
    orders := [⟨1, 11, 20, 2, 2, 9, 9, .KITTING, .COMPLETED⟩],
    materials := [], issueDetails := [], receipts := [] }

/-- A second copy of `completedDB` dedicated to the amended claim's
witness. -/
def statusWitnessDB : DB :=
  { lots := [],
    orders := [⟨1, 11, 20, 2, 2, 9, 9, .KITTING, .COMPLETED⟩],
    materials := [], issueDetails := [], receipts := [] }

/-- A state satisfying the requirement bound, for the invariant witness. -/
def invWitnessDB : DB :=
  { lots := [],
    orders := [⟨1, 11, 20, 2, 0, 9, 9, .KITTING, .CONFIRMED⟩],
    materials := [⟨1, 7, 5, 2, .PENDING, 9⟩],
    issueDetails := [], receipts := [] }

/-- Two lots of material 7 in warehouse 9 totalling 7 units, for the preview
witness. -/
def previewLots : List Lot :=
  [⟨1, 7, 9, "X", 3, 3, some 100, false⟩, ⟨2, 7, 9, "Y", 4, 4, some 200, false⟩]

/-! ## Generic lemmas -/

theorem sum_map_filter_partition (p : α → Bool) (f : α → Qty) (l : List α) :
    ((l.filter p).map f).sum + ((l.filter fun x => !p x).map f).sum = (l.map f).sum := by
  induction l with
  | nil => simp
  | cons a t ih =>
      cases hp : p a <;> simp only [List.filter_cons, hp, Bool.not_true, Bool.not_false,
        cond_true, cond_false, if_pos, if_neg, Bool.false_eq_true, not_false_iff,
        ite_true, ite_false, List.map_cons, List.sum_cons] <;> linarith [ih]

theorem findOrder_of_mapped (orders : List OrderRow) (orderId : Nat)
    (f : OrderRow → OrderRow) (hid : ∀ x, (f x).id = x.id) :
    (orders.map fun x => if x.id = orderId then f x else x).find? (fun o => o.id == orderId)
      = ((orders.find? fun o => o.id == orderId).map fun x => if x.id = orderId then f x else x) := by
  induction orders with
  | nil => rfl
  | cons a t ih =>
      by_cases h : a.id = orderId
      · simp [List.find?_cons, List.map_cons, if_pos h, hid, h]
      · simp only [List.map_cons, if_neg h, List.find?_cons]
        rw [show ((a.id == orderId) = false) from beq_eq_false_iff_ne.mpr h]
        exact ih

/-! ## C6: requirement formula and preview/persist agreement -/

/-- C6: for every BOM line and target quantity the computed requirement equals
`qtyPerUnit × targetQty × (1 + scrapRatePct/100)`, and the availability
preview (`calculate_material_requirements`) and the rows persisted by
`create_order` compute the same quantities from the same BOM. -/
theorem requirement_formula_agrees (db : DB) (newOrderId : Nat) (bom : List BomLine)
    (bomHeaderId productId : Nat) (plannedQty : Qty) (bomType : BomType)
    (warehouseId targetWarehouseId : Nat) :
    (((create_order db newOrderId bom bomHeaderId productId plannedQty bomType
        warehouseId targetWarehouseId).materials.drop db.materials.length).map
          fun m => (m.materialId, m.requiredQty))
      = calculate_material_requirements bom plannedQty ∧
    calculate_material_requirements bom plannedQty
      = bom.map fun d => (d.materialId, d.quantity * plannedQty * (1 + d.scrapRate / 100)) := by
  constructor
  · simp only [create_order, List.drop_left, List.map_map]
    rfl
  · rfl

/-! ## C7: status transitions -/

/-- C7 counterexample: `update_order_status` moves a COMPLETED order to
CANCELLED, so COMPLETED is not terminal under the code's operations. -/
theorem completed_order_leaves_completed :
    orderStatus completedDB 1 = some .COMPLETED ∧
    orderStatus (update_order_status completedDB 1 .CANCELLED) 1 = some .CANCELLED := by
  constructor <;> rfl

/-- C7 amended: the code enforces no transition table — `update_order_status`
unconditionally sets any requested status on an existing order, including
away from COMPLETED or CANCELLED. -/
theorem update_order_status_unconditional (db : DB) (orderId : Nat)
    (s : OrderStatus) (o : OrderRow) (ho : findOrder db orderId = some o) :
    orderStatus (update_order_status db orderId s) orderId = some s := by
  have hid : ∀ x : OrderRow, ({ x with status := s } : OrderRow).id = x.id := fun _ => rfl
  have h := findOrder_of_mapped db.orders orderId (fun x => { x with status := s }) hid
  have hoid : o.id = orderId := by
    have := List.find?_some ho
    exact beq_iff_eq.mp this
  simp only [orderStatus, findOrder, update_order_status] at *
  rw [h, ho]
  simp [hoid]

/-- C7 amended witness: moving the COMPLETED order of `statusWitnessDB` to
CANCELLED. -/
theorem update_order_status_unconditional_witness :
    orderStatus (update_order_status statusWitnessDB 1 .CANCELLED) 1 = some .CANCELLED :=
  update_order_status_unconditional statusWitnessDB 1 .CANCELLED
    ⟨1, 11, 20, 2, 2, 9, 9, .KITTING, .COMPLETED⟩ rfl

/-! ## C9: number generation -/

/-- C9 counterexample: two distinct generation calls (call ids 1 and 2) within
the same wall-clock second return the same order number — the source derives
the number from the second-resolution timestamp alone, with no collision check
or retry. -/
theorem same_second_number_collision :
    generate_order_number 20250101120000 1 = generate_order_number 20250101120000 2 := rfl

theorem digitChar_inj_lt (a b : Nat) (ha : a < 10) (hb : b < 10)
    (h : Nat.digitChar a = Nat.digitChar b) : a = b := by
  interval_cases a <;> interval_cases b <;> first | rfl | exact absurd h (by decide)

theorem map_digitChar_inj : ∀ (l₁ l₂ : List Nat), (∀ x ∈ l₁, x < 10) →
    (∀ x ∈ l₂, x < 10) → l₁.map Nat.digitChar = l₂.map Nat.digitChar → l₁ = l₂
  | [], [], _, _, _ => rfl
  | [], _ :: _, _, _, h => by simp at h
  | _ :: _, [], _, _, h => by simp at h
  | a :: as, b :: bs, h₁, h₂, h => by
      simp only [List.map_cons, List.cons.injEq] at h
      have hd := digitChar_inj_lt a b (h₁ a (by simp)) (h₂ b (by simp)) h.1
      have tl := map_digitChar_inj as bs (fun x hx => h₁ x (by simp [hx]))
        (fun x hx => h₂ x (by simp [hx])) h.2
      rw [hd, tl]

theorem formatTimestamp_inj (t₁ t₂ : Nat)
    (h : formatTimestamp t₁ = formatTimestamp t₂) : t₁ = t₂ := by
  unfold formatTimestamp at h
  have hdig : ∀ t, ∀ x ∈ (Nat.digits 10 t).reverse, x < 10 := by
    intro t x hx
    exact Nat.digits_lt_base (by norm_num) (List.mem_reverse.mp hx)
  have hrev := map_digitChar_inj _ _ (hdig t₁) (hdig t₂) h
  have := List.reverse_inj.mp hrev
  exact Nat.digits_inj_iff.mp this

/-- C9 amended: each generated number is the fixed prefix followed by the
decimal second-resolution timestamp, so numbers from two calls are equal
exactly when the wall-clock seconds are equal — distinct seconds give distinct
numbers, but two calls in the same second collide and no retry exists. -/
theorem number_generation_timestamp_determined (t₁ t₂ c₁ c₂ : Nat) :
    (generate_order_number t₁ c₁ = generate_order_number t₂ c₂ ↔ t₁ = t₂) ∧
    (generate_issue_number t₁ c₁ = generate_issue_number t₂ c₂ ↔ t₁ = t₂) ∧
    (generate_receipt_number t₁ c₁ = generate_receipt_number t₂ c₂ ↔ t₁ = t₂) := by
  refine ⟨⟨?_, ?_⟩, ⟨?_, ?_⟩, ⟨?_, ?_⟩⟩ <;>
    first
      | (intro h
         simp only [generate_order_number, generate_issue_number,
           generate_receipt_number, List.cons.injEq, true_and] at h
         exact formatTimestamp_inj t₁ t₂ h)
      | (intro h; rw [h]; rfl)

/-! ## Grouping, sorting and preview-total lemmas -/

theorem groupStockAux_sum (today : Nat) : ∀ (fuel : Nat) (rows : List Lot),
    rows.length ≤ fuel →
    ((groupStockAux today fuel rows).map BatchStock.available_qty).sum
      = (rows.map Lot.remain).sum := by
  intro fuel
  induction fuel with
  | zero =>
      intro rows h
      cases rows with
      | nil => rfl
      | cons l rest => simp at h
  | succ n ih =>
      intro rows h
      cases rows with
      | nil => rfl
      | cons l rest =>
          simp only [groupStockAux, List.map_cons, List.sum_cons]
          rw [ih (rest.filter fun x => !sameGroup l x)
            (le_trans (List.length_filter_le _ _) (Nat.le_of_succ_le_succ h))]
          have hpart := sum_map_filter_partition (sameGroup l) Lot.remain rest
          linarith [hpart]

theorem groupStock_sum (today : Nat) (rows : List Lot) :
    ((groupStock today rows).map BatchStock.available_qty).sum
      = (rows.map Lot.remain).sum :=
  groupStockAux_sum today rows.length rows le_rfl

theorem groupStockAux_pos (today : Nat) : ∀ (fuel : Nat) (rows : List Lot),
    (∀ l ∈ rows, 0 < l.remain) →
    ∀ b ∈ groupStockAux today fuel rows, 0 < b.available_qty := by
  intro fuel
  induction fuel with
  | zero =>
      intro rows _ b hb
      cases rows with
      | nil => simp [groupStockAux] at hb
      | cons l rest => simp [groupStockAux] at hb
  | succ n ih =>
      intro rows hpos b hb
      cases rows with
      | nil => simp [groupStockAux] at hb
      | cons l rest =>
          simp only [groupStockAux, List.mem_cons] at hb
          rcases hb with rfl | hb
          · have h1 : 0 < l.remain := hpos l (by simp)
            have h2 : 0 ≤ ((rest.filter (sameGroup l)).map Lot.remain).sum := by
              apply List.sum_nonneg
              intro x hx
              obtain ⟨y, hy, rfl⟩ := List.mem_map.mp hx
              exact le_of_lt (hpos y (List.mem_cons_of_mem _ (List.mem_of_mem_filter hy)))
            show 0 < l.remain + _
            linarith
          · exact ih _
              (fun x hx => hpos x (List.mem_cons_of_mem _ (List.mem_of_mem_filter hx)))
              b hb

theorem insertionSort_map_sum (r : α → α → Prop) [DecidableRel r] (f : α → Qty)
    (l : List α) :
    ((List.insertionSort r l).map f).sum = (l.map f).sum :=
  ((List.perm_insertionSort r l).map f).sum_eq

theorem stockRows_mem {ledger : List Lot} {pid wid : Nat} {l : Lot}
    (h : l ∈ stockRows ledger pid wid) :
    l ∈ ledger ∧ l.productId = pid ∧ l.warehouseId = wid ∧ 0 < l.remain ∧
      l.deleteFlag = false := by
  simp only [stockRows, lotCond, List.mem_filter, Bool.and_eq_true, beq_iff_eq,
    decide_eq_true_eq, Bool.not_eq_true'] at h
  tauto

theorem totalAvailable_nonneg (ledger : List Lot) (pid wid : Nat) :
    0 ≤ totalAvailable ledger pid wid := by
  apply List.sum_nonneg
  intro x hx
  obtain ⟨y, hy, rfl⟩ := List.mem_map.mp hx
  exact (stockRows_mem hy).2.2.2.1.le

theorem get_stock_by_batch_pos {ledger : List Lot} {pid wid today : Nat} {b : BatchStock}
    (hb : b ∈ get_stock_by_batch ledger pid wid today) : 0 < b.available_qty := by
  unfold get_stock_by_batch at hb
  have hmem := (List.perm_insertionSort batchLE _).mem_iff.mp hb
  exact groupStockAux_pos today _ _ (fun l hl => (stockRows_mem hl).2.2.2.1) b hmem

theorem get_stock_by_batch_sum (ledger : List Lot) (pid wid today : Nat) :
    ((get_stock_by_batch ledger pid wid today).map BatchStock.available_qty).sum
      = totalAvailable ledger pid wid := by
  unfold get_stock_by_batch totalAvailable
  rw [insertionSort_map_sum, groupStock_sum]

theorem previewLoop_nonpos {q : Qty} (hq : q ≤ 0) (l : List BatchStock) :
    previewLoop q l = [] := by
  cases l with
  | nil => rfl
  | cons b rest => simp [previewLoop, hq]

theorem previewLoop_total : ∀ (bs : List BatchStock),
    (∀ b ∈ bs, 0 < b.available_qty) → ∀ q : Qty, 0 < q →
    selectionTotal (previewLoop q bs) = min q ((bs.map BatchStock.available_qty).sum)
  | [] => by
      intro _ q hq
      simp only [previewLoop, selectionTotal, List.map_nil, List.sum_nil]
      rw [min_eq_right hq.le]
  | b :: rest => by
      intro hpos q hq
      have hb : 0 < b.available_qty := hpos b (by simp)
      have hrest : ∀ x ∈ rest, 0 < x.available_qty := fun x hx => hpos x (by simp [hx])
      have hsum0 : 0 ≤ (rest.map BatchStock.available_qty).sum := by
        apply List.sum_nonneg
        intro x hx
        obtain ⟨y, hy, rfl⟩ := List.mem_map.mp hx
        exact (hrest y hy).le
      simp only [previewLoop, if_neg (not_le.mpr hq)]
      by_cases hle : q ≤ b.available_qty
      · rw [min_eq_left hle, previewLoop_nonpos (by linarith) rest]
        simp only [selectionTotal, List.map_cons, List.map_nil, List.sum_cons,
          List.sum_nil, List.map_cons, List.sum_cons]
        rw [min_eq_left (by linarith : q ≤ b.available_qty + (rest.map BatchStock.available_qty).sum)]
        ring
      · push_neg at hle
        rw [min_eq_right hle.le]
        have ih := previewLoop_total rest hrest (q - b.available_qty) (by linarith)
        simp only [selectionTotal, List.map_cons, List.sum_cons] at ih ⊢
        rw [ih]
        rcases le_total (q - b.available_qty) ((rest.map BatchStock.available_qty).sum)
          with h' | h'
        · rw [min_eq_left h', min_eq_left (by linarith)]
          ring
        · rw [min_eq_right h', min_eq_right (by linarith)]

/-! ## C10: the dry-run preview -/

/-- C10: `preview_fefo_issue` never fails and writes nothing: for every
positive requested quantity the selected quantities sum to
`min(requestedQty, total available remain)` — a partial selection covering
all stock when availability is insufficient — and the result is empty when no
stock row exists. -/
theorem preview_fefo_issue_spec (ledger : List Lot) (productId warehouseId today : Nat)
    (q : Qty) (hq : 0 < q) :
    selectionTotal (preview_fefo_issue ledger productId q warehouseId today)
        = min q (totalAvailable ledger productId warehouseId) ∧
      (get_stock_by_batch ledger productId warehouseId today = [] →
        preview_fefo_issue ledger productId q warehouseId today = []) := by
  constructor
  · unfold preview_fefo_issue
    by_cases hE : (get_stock_by_batch ledger productId warehouseId today).isEmpty
    · have hnil : get_stock_by_batch ledger productId warehouseId today = [] :=
        List.isEmpty_iff.mp hE
      have h0 : totalAvailable ledger productId warehouseId = 0 := by
        rw [← get_stock_by_batch_sum ledger productId warehouseId today, hnil]
        rfl
      simp [hE, h0, selectionTotal, min_eq_right hq.le]
    · simp only [hE, Bool.false_eq_true, if_neg, ite_false]
      rw [previewLoop_total _ (fun b hb => get_stock_by_batch_pos hb) q hq,
        get_stock_by_batch_sum]
  · intro h
    simp [preview_fefo_issue, h]

/-- C10 witness: requesting 10 against 7 available yields a selection
totalling `min 10 7`. -/
theorem preview_fefo_issue_spec_witness :
    (0:Qty) < 10 ∧
    (selectionTotal (preview_fefo_issue previewLots 7 10 9 50)
        = min 10 (totalAvailable previewLots 7 9) ∧
      (get_stock_by_batch previewLots 7 9 50 = [] →
        preview_fefo_issue previewLots 7 10 9 50 = [])) :=
  ⟨by norm_num, preview_fefo_issue_spec previewLots 7 9 50 10 (by norm_num)⟩

/-! ## Allocation-failure lemmas -/

theorem fefoWalk_leftover_ge : ∀ (cands : List Lot), (∀ l ∈ cands, 0 ≤ l.remain) →
    ∀ q : Qty, q - ((cands.map Lot.remain).sum) ≤ (fefoWalk q cands).2
  | [] => by
      intro _ q
      simp [fefoWalk]
  | l :: rest => by
      intro hpos q
      have hl : 0 ≤ l.remain := hpos l (by simp)
      have hrest : ∀ x ∈ rest, 0 ≤ x.remain := fun x hx => hpos x (by simp [hx])
      have hsum0 : 0 ≤ (rest.map Lot.remain).sum := by
        apply List.sum_nonneg
        intro x hx
        obtain ⟨y, hy, rfl⟩ := List.mem_map.mp hx
        exact hrest y hy
      simp only [fefoWalk, List.map_cons, List.sum_cons]
      by_cases hq : q ≤ 0
      · rw [if_pos hq]
        show q - (l.remain + _) ≤ q
        linarith
      · rw [if_neg hq]
        have ih := fefoWalk_leftover_ge rest hrest (q - min q l.remain)
        show q - (l.remain + _) ≤ (fefoWalk (q - min q l.remain) rest).2
        have hmin : min q l.remain ≤ l.remain := min_le_right _ _
        linarith

theorem fefoWalk_qty_nonneg : ∀ (cands : List Lot), (∀ l ∈ cands, 0 ≤ l.remain) →
    ∀ q : Qty, ∀ c ∈ (fefoWalk q cands).1, 0 ≤ c.qty
  | [] => by
      intro _ q c hc
      simp [fefoWalk] at hc
  | l :: rest => by
      intro hpos q c hc
      simp only [fefoWalk] at hc
      by_cases hq : q ≤ 0
      · rw [if_pos hq] at hc
        simp at hc
      · rw [if_neg hq] at hc
        push_neg at hq
        simp only [List.mem_cons] at hc
        rcases hc with rfl | hc
        · exact le_min hq.le (hpos l (by simp))
        · exact fefoWalk_qty_nonneg rest (fun x hx => hpos x (by simp [hx])) _ c hc

theorem lotShrink_refl (l : Lot) : LotShrink l l := ⟨le_refl _, rfl⟩

theorem lotShrink_trans {a b c : Lot} (h₁ : LotShrink a b) (h₂ : LotShrink b c) :
    LotShrink a c := by
  obtain ⟨hle₁, heq₁⟩ := h₁
  obtain ⟨hle₂, heq₂⟩ := h₂
  refine ⟨le_trans hle₁ hle₂, ?_⟩
  rw [heq₁, heq₂]

theorem forall₂_lotShrink_refl : ∀ (lots : List Lot), List.Forall₂ LotShrink lots lots
  | [] => List.Forall₂.nil
  | l :: rest => List.Forall₂.cons (lotShrink_refl l) (forall₂_lotShrink_refl rest)

theorem forall₂_lotShrink_trans : ∀ {a b c : List Lot}, List.Forall₂ LotShrink a b →
    List.Forall₂ LotShrink b c → List.Forall₂ LotShrink a c
  | _, _, _, List.Forall₂.nil, List.Forall₂.nil => List.Forall₂.nil
  | _, _, _, List.Forall₂.cons h₁ t₁, List.Forall₂.cons h₂ t₂ =>
      List.Forall₂.cons (lotShrink_trans h₁ h₂) (forall₂_lotShrink_trans t₁ t₂)

theorem forall₂_lotShrink_map (g : Lot → Lot) (hg : ∀ l, LotShrink (g l) l) :
    ∀ (lots : List Lot), List.Forall₂ LotShrink (lots.map g) lots
  | [] => List.Forall₂.nil
  | l :: rest => List.Forall₂.cons (hg l) (forall₂_lotShrink_map g hg rest)

theorem applyConsumptions_shrink : ∀ (cs : List Consumption) (lots : List Lot),
    (∀ c ∈ cs, 0 ≤ c.qty) → List.Forall₂ LotShrink (applyConsumptions lots cs) lots
  | [] => fun lots _ => forall₂_lotShrink_refl lots
  | c :: rest => by
      intro lots hq
      have hstep : ∀ l : Lot,
          LotShrink (if l.id = c.lotId then { l with remain := l.remain - c.qty } else l) l := by
        intro l
        by_cases h : l.id = c.lotId
        · rw [if_pos h]
          refine ⟨?_, rfl⟩
          have := hq c (by simp)
          show l.remain - c.qty ≤ l.remain
          linarith
        · rw [if_neg h]
          exact lotShrink_refl l
      have hhead := forall₂_lotShrink_map _ hstep lots
      have htail := applyConsumptions_shrink rest
        (lots.map fun l => if l.id = c.lotId then { l with remain := l.remain - c.qty } else l)
        (fun x hx => hq x (by simp [hx]))
      exact forall₂_lotShrink_trans htail hhead

theorem totalAvailable_mono : ∀ {lotsAfter lotsBefore : List Lot},
    List.Forall₂ LotShrink lotsAfter lotsBefore → ∀ (pid wid : Nat),
    totalAvailable lotsAfter pid wid ≤ totalAvailable lotsBefore pid wid := by
  intro lotsAfter lotsBefore h
  induction h with
  | nil => intro pid wid; exact le_refl _
  | @cons a b lA lB hab _ ih =>
      intro pid wid
      obtain ⟨hle, heq⟩ := hab
      have hfields : a.productId = b.productId ∧ a.warehouseId = b.warehouseId ∧
          a.deleteFlag = b.deleteFlag := by
        rw [heq]
        exact ⟨rfl, rfl, rfl⟩
      simp only [totalAvailable, stockRows, List.filter_cons]
      by_cases hca : lotCond pid wid a = true
      · have hcb : lotCond pid wid b = true := by
          simp only [lotCond, Bool.and_eq_true, beq_iff_eq, decide_eq_true_eq,
            Bool.not_eq_true'] at hca ⊢
          obtain ⟨⟨⟨h1, h2⟩, h3⟩, h4⟩ := hca
          exact ⟨⟨⟨hfields.1 ▸ h1, hfields.2.1 ▸ h2⟩, by linarith⟩, hfields.2.2 ▸ h4⟩
        simp only [hca, hcb, if_true, List.map_cons, List.sum_cons]
        have := ih pid wid
        simp only [totalAvailable, stockRows] at this
        linarith
      · rw [Bool.not_eq_true] at hca
        have hb0 : ((List.filter (lotCond pid wid) lB).map Lot.remain).sum
            ≤ ((if lotCond pid wid b = true then b :: List.filter (lotCond pid wid) lB
              else List.filter (lotCond pid wid) lB).map Lot.remain).sum := by
          by_cases hcb : lotCond pid wid b = true
          · simp only [hcb, if_true, List.map_cons, List.sum_cons]
            have : (0:Qty) < b.remain := by
              simp only [lotCond, Bool.and_eq_true, decide_eq_true_eq] at hcb
              exact hcb.1.2
            linarith
          · rw [Bool.not_eq_true] at hcb
            simp only [hcb, Bool.false_eq_true, if_false, le_refl]
        simp only [hca, Bool.false_eq_true, if_false]
        have := ih pid wid
        simp only [totalAvailable, stockRows] at this
        linarith

theorem sp_error_insufficient {lots : List Lot} {mid wid : Nat} {q : Qty} {e : PError}
    (h : sp_issue_material_fefo lots mid q wid = .error e) : e = .insufficientStock := by
  simp only [sp_issue_material_fefo] at h
  split at h
  · injection h with h'
    exact h'.symm
  · exact absurd h (by simp)

theorem sp_insufficient (lots : List Lot) (mid wid : Nat) (q : Qty)
    (h : totalAvailable lots mid wid < q) :
    sp_issue_material_fefo lots mid q wid = .error .insufficientStock := by
  unfold sp_issue_material_fefo
  have hpos : ∀ l ∈ List.insertionSort lotFefoLE (stockRows lots mid wid), 0 ≤ l.remain := by
    intro l hl
    exact (stockRows_mem ((List.perm_insertionSort lotFefoLE _).mem_iff.mp hl)).2.2.2.1.le
  have hsum : ((List.insertionSort lotFefoLE (stockRows lots mid wid)).map Lot.remain).sum
      = totalAvailable lots mid wid := insertionSort_map_sum _ _ _
  have hlg := fefoWalk_leftover_ge _ hpos q
  rw [hsum] at hlg
  have hleft : 0 < (fefoWalk q (List.insertionSort lotFefoLE (stockRows lots mid wid))).2 := by
    linarith
  rw [if_pos hleft]

theorem sp_ok_shrink {lots : List Lot} {mid wid : Nat} {q : Qty}
    {lotsAfter : List Lot} {cs : List Consumption}
    (h : sp_issue_material_fefo lots mid q wid = .ok (lotsAfter, cs)) :
    List.Forall₂ LotShrink lotsAfter lots := by
  simp only [sp_issue_material_fefo] at h
  split at h
  · exact absurd h (by simp)
  · injection h with h'
    have hl : lotsAfter = applyConsumptions lots
        (fefoWalk q (List.insertionSort lotFefoLE (stockRows lots mid wid))).1 :=
      (congrArg Prod.fst h').symm
    rw [hl]
    apply applyConsumptions_shrink
    apply fefoWalk_qty_nonneg
    intro l hl'
    exact (stockRows_mem ((List.perm_insertionSort lotFefoLE _).mem_iff.mp hl')).2.2.2.1.le

theorem issueLoop_insufficient (wid : Nat) : ∀ (mats : List MaterialRow) (lots : List Lot),
    (∃ m ∈ mats, totalAvailable lots m.materialId wid < m.requiredQty - m.issuedQty) →
    issueLoop wid lots mats = .error .insufficientStock
  | [] => by
      rintro lots ⟨m, hm, _⟩
      simp at hm
  | m :: rest => by
      rintro lots ⟨m₀, hm₀, hins⟩
      simp only [List.mem_cons] at hm₀
      rcases hm₀ with rfl | hm₀
      · have hrem : 0 < m₀.requiredQty - m₀.issuedQty :=
          lt_of_le_of_lt (totalAvailable_nonneg lots m₀.materialId wid) hins
        simp only [issueLoop, if_pos hrem]
        rw [sp_insufficient lots m₀.materialId wid _ hins]
      · by_cases hrem : 0 < m.requiredQty - m.issuedQty
        · simp only [issueLoop, if_pos hrem]
          cases hsp : sp_issue_material_fefo lots m.materialId
              (m.requiredQty - m.issuedQty) wid with
          | error e =>
              rw [sp_error_insufficient hsp]
          | ok p =>
              obtain ⟨lotsAfter, cs⟩ := p
              have hmono := totalAvailable_mono (sp_ok_shrink hsp) m₀.materialId wid
              have hih := issueLoop_insufficient wid rest lotsAfter
                ⟨m₀, hm₀, lt_of_le_of_lt hmono hins⟩
              dsimp only
              rw [hih]
        · simp only [issueLoop, if_neg hrem]
          exact issueLoop_insufficient wid rest lots ⟨m₀, hm₀, hins⟩

/-! ## C1: insufficiency is atomic -/

/-- C1: if the total available remain for a requirement's material and the
order's warehouse is below the quantity still needed, `issue_materials` fails
with the insufficient-stock error and the transaction rollback leaves the
state (in particular every lot's `remain`) exactly as before the call. -/
theorem issue_materials_insufficient_atomic (db : DB) (orderId : Nat) (o : OrderRow)
    (m : MaterialRow) (ho : findOrder db orderId = some o) (hm : m ∈ db.materials)
    (hmo : m.orderId = orderId)
    (hins : totalAvailable db.lots m.materialId o.warehouseId
      < m.requiredQty - m.issuedQty) :
    issue_materials_tx db orderId = (db, .error .insufficientStock) := by
  have hmem : m ∈ get_order_materials db orderId := by
    simp only [get_order_materials, List.mem_filter, beq_iff_eq]
    exact ⟨hm, hmo⟩
  have hloop := issueLoop_insufficient o.warehouseId (get_order_materials db orderId)
    db.lots ⟨m, hmem, hins⟩
  unfold issue_materials_tx issue_materials
  rw [ho]
  dsimp only
  rw [hloop]

/-- C1 witness: a confirmed order needing 10 units of material 7 against a
single lot with `remain = 4`. -/
theorem issue_materials_insufficient_atomic_witness :
    findOrder insufficientDB 1 = some ⟨1, 11, 20, 2, 0, 9, 9, .KITTING, .CONFIRMED⟩ ∧
    totalAvailable insufficientDB.lots 7 9 < 10 - 0 ∧
    issue_materials_tx insufficientDB 1 = (insufficientDB, .error .insufficientStock) :=
  ⟨rfl,
   by norm_num [insufficientDB, totalAvailable, stockRows, lotCond],
   issue_materials_insufficient_atomic insufficientDB 1
     ⟨1, 11, 20, 2, 0, 9, 9, .KITTING, .CONFIRMED⟩ ⟨1, 7, 10, 0, .PENDING, 9⟩
     rfl (by simp [insufficientDB]) rfl
     (by norm_num [insufficientDB, totalAvailable, stockRows, lotCond])⟩

/-! ## C2: order-status precondition of issue_materials -/

/-- C2 counterexample: `issue_materials` succeeds on a COMPLETED order with a
pending requirement (no `InvalidStateTransitionError` is raised) and leaves the
order's status unchanged rather than setting IN_PROGRESS in the same
transaction. -/
theorem issue_succeeds_on_completed_order :
    orderStatus completedPendingDB 1 = some .COMPLETED ∧
    issue_materials completedPendingDB 1 =
      .ok ({ lots := [⟨1, 7, 9, "L1", 10, 5, some 100, false⟩],
             orders := [⟨1, 11, 20, 2, 0, 9, 9, .KITTING, .COMPLETED⟩],
             materials := [⟨1, 7, 5, 5, .ISSUED, 9⟩],
             issueDetails := [⟨1, 7, 1, 5⟩],
             receipts := [] },
           [⟨1, 7, 1, 5⟩]) := by
  constructor
  · rfl
  · norm_num [issue_materials, findOrder, List.find?, get_order_materials, issueLoop,
      sp_issue_material_fefo, stockRows, lotCond, List.insertionSort, List.orderedInsert,
      lotFefoLE, keyLt, expLastKey, strLeB, charsLeB, fefoWalk, applyConsumptions,
      completedPendingDB, List.filter_cons, beq_iff_eq]

/-- C2 amended: `issue_materials` checks no order status at all — whenever it
returns success (for an order of any status, COMPLETED and CANCELLED included)
it marks every material row of the order ISSUED with
`issued_qty = required_qty`, and it leaves the orders table untouched; the
IN_PROGRESS transition only happens in the page's separate follow-up call to
`update_order_status`. -/
theorem issue_materials_no_status_check (db : DB) (orderId : Nat) (db' : DB)
    (ds : List IssueDetailRow) (h : issue_materials db orderId = .ok (db', ds)) :
    (∀ m ∈ db'.materials, m.orderId = orderId →
      m.status = .ISSUED ∧ m.issuedQty = m.requiredQty) ∧
    db'.orders = db.orders := by
  unfold issue_materials at h
  cases ho : findOrder db orderId with
  | none =>
      rw [ho] at h
      exact absurd h (by simp)
  | some o =>
      rw [ho] at h
      dsimp only at h
      cases hl : issueLoop o.warehouseId db.lots (get_order_materials db orderId) with
      | error e =>
          rw [hl] at h
          exact absurd h (by simp)
      | ok p =>
          obtain ⟨lots', ds'⟩ := p
          rw [hl] at h
          dsimp only at h
          injection h with h'
          have hdb : db' = { db with
              lots := lots',
              issueDetails := db.issueDetails ++ ds',
              materials := db.materials.map fun m =>
                if m.orderId = orderId then
                  { m with issuedQty := m.requiredQty, status := .ISSUED }
                else m } := (congrArg Prod.fst h').symm
          subst hdb
          constructor
          · intro m hm hmo
            obtain ⟨pre, hpre, hf⟩ := List.mem_map.mp hm
            by_cases hp : pre.orderId = orderId
            · rw [if_pos hp] at hf
              rw [← hf]
              exact ⟨rfl, rfl⟩
            · rw [if_neg hp] at hf
              rw [← hf] at hmo
              exact absurd hmo hp
          · rfl

/-- C2 amended witness: a successful issuance on the COMPLETED order of
`issueWitnessDB`. -/
theorem issue_materials_no_status_check_witness :
    ∃ db' ds, issue_materials issueWitnessDB 1 = .ok (db', ds) ∧
      (∀ m ∈ db'.materials, m.orderId = 1 →
        m.status = .ISSUED ∧ m.issuedQty = m.requiredQty) ∧
      db'.orders = issueWitnessDB.orders := by
  have h : issue_materials issueWitnessDB 1 =
      .ok ({ lots := [⟨1, 7, 9, "L1", 10, 5, some 100, false⟩],
             orders := [⟨1, 11, 20, 2, 0, 9, 9, .KITTING, .COMPLETED⟩],
             materials := [⟨1, 7, 5, 5, .ISSUED, 9⟩],
             issueDetails := [⟨1, 7, 1, 5⟩],
             receipts := [] },
           [⟨1, 7, 1, 5⟩]) := by
    norm_num [issue_materials, findOrder, List.find?, get_order_materials, issueLoop,
      sp_issue_material_fefo, stockRows, lotCond, List.insertionSort, List.orderedInsert,
      lotFefoLE, keyLt, expLastKey, strLeB, charsLeB, fefoWalk, applyConsumptions,
      issueWitnessDB, List.filter_cons, beq_iff_eq]
  exact ⟨_, _, h, issue_materials_no_status_check issueWitnessDB 1 _ _ h⟩

/-! ## C3: completion guards -/

/-- C3 counterexample: `complete_production` accepts a produced quantity above
the planned quantity (no `ValidationError`), succeeds a second time on the
already-COMPLETED order (no `InvalidStateTransitionError`), and the two calls
create two receipts and two inventory lots. -/
theorem complete_production_twice_succeeds :
    orderStatus inProgressDB 1 = some .IN_PROGRESS ∧
    (findOrder inProgressDB 1).map OrderRow.plannedQty = some 10 ∧ (10:Qty) < 11 ∧
    complete_production inProgressDB 1 11 "B1" 50 =
      .ok ({ lots := [⟨50, 20, 9, "B1", 11, 11, none, false⟩],
             orders := [⟨1, 11, 20, 10, 11, 9, 9, .CUTTING, .COMPLETED⟩],
             materials := [], issueDetails := [],
             receipts := [⟨1, 20, 11, "B1"⟩] },
           ⟨1, 20, 11, "B1"⟩) ∧
    complete_production
        { lots := [⟨50, 20, 9, "B1", 11, 11, none, false⟩],
          orders := [⟨1, 11, 20, 10, 11, 9, 9, .CUTTING, .COMPLETED⟩],
          materials := [], issueDetails := [],
          receipts := [⟨1, 20, 11, "B1"⟩] } 1 11 "B2" 51 =
      .ok ({ lots := [⟨50, 20, 9, "B1", 11, 11, none, false⟩,
                      ⟨51, 20, 9, "B2", 11, 11, none, false⟩],
             orders := [⟨1, 11, 20, 10, 11, 9, 9, .CUTTING, .COMPLETED⟩],
             materials := [], issueDetails := [],
             receipts := [⟨1, 20, 11, "B1"⟩, ⟨1, 20, 11, "B2"⟩] },
           ⟨1, 20, 11, "B2"⟩) := by
  refine ⟨rfl, rfl, by norm_num, ?_, ?_⟩ <;>
    norm_num [complete_production, findOrder, List.find?, kitMinExpiry, consumedExpiries,
      sqlMin, inProgressDB, List.filter_cons, beq_iff_eq]

/-- C3 amended: `complete_production` validates neither the order status nor
the quantity range — for any existing order and any produced quantity it
succeeds, appends exactly one receipt and one inventory lot, and sets the
order COMPLETED (the page alone restricts selection to IN_PROGRESS orders and
bounds the quantity input by the planned quantity). -/
theorem complete_production_no_validation (db : DB) (orderId : Nat)
    (producedQty : Qty) (batchNo : String) (newLotId : Nat) (o : OrderRow)
    (ho : findOrder db orderId = some o) :
    ∃ db' r, complete_production db orderId producedQty batchNo newLotId = .ok (db', r) ∧
      db'.receipts.length = db.receipts.length + 1 ∧
      db'.lots.length = db.lots.length + 1 ∧
      orderStatus db' orderId = some .COMPLETED := by
  unfold complete_production
  rw [ho]
  dsimp only
  refine ⟨_, _, rfl, ?_, ?_, ?_⟩
  · simp
  · simp
  · have hid : ∀ x : OrderRow,
        ({ x with producedQty := producedQty, status := .COMPLETED } : OrderRow).id = x.id :=
      fun _ => rfl
    have h := findOrder_of_mapped db.orders orderId
      (fun x => { x with producedQty := producedQty, status := .COMPLETED }) hid
    have ho' : db.orders.find? (fun x => x.id == orderId) = some o := ho
    have hp := List.find?_some ho'
    have hoid : o.id = orderId := beq_iff_eq.mp hp
    simp only [orderStatus, findOrder] at *
    rw [h, ho']
    simp [hoid]

/-- C3 amended witness: completing the in-progress order of
`completeWitnessDB` with quantity 11 (above the planned 10). -/
theorem complete_production_no_validation_witness :
    ∃ db' r, complete_production completeWitnessDB 1 11 "B1" 50 = .ok (db', r) ∧
      db'.receipts.length = completeWitnessDB.receipts.length + 1 ∧
      db'.lots.length = completeWitnessDB.lots.length + 1 ∧
      orderStatus db' 1 = some .COMPLETED :=
  complete_production_no_validation completeWitnessDB 1 11 "B1" 50
    ⟨1, 11, 20, 10, 0, 9, 9, .CUTTING, .IN_PROGRESS⟩ rfl

/-! ## C4: FEFO ordering and the A/B example -/

/-- C4 counterexample: with a null-expiry lot `N` and a dated lot `A`,
`get_stock_by_batch` returns `N` before `A` — MySQL's ascending `ORDER BY`
puts `NULL` first, so the result is not ordered with null expiry last as the
claim states. -/
theorem null_expiry_sorts_first :
    (get_stock_by_batch [c4lotA, c4lotN] 7 9 50).map BatchStock.expired_date
      = [none, some 110] ∧
    ¬ List.Sorted specNullsLastLE (get_stock_by_batch [c4lotA, c4lotN] 7 9 50) := by
  have heval : get_stock_by_batch [c4lotA, c4lotN] 7 9 50
      = [⟨"N", 4, none, "OK"⟩, ⟨"A", 5, some 110, "OK"⟩] := by
    norm_num [get_stock_by_batch, stockRows, lotCond, groupStock, groupStockAux,
      sameGroup, c4lotA, c4lotN, List.insertionSort, List.orderedInsert, batchLE,
      mysqlAscKey, strLeB, charsLeB, expiryStatusOf, List.filter_cons, beq_iff_eq]
  constructor
  · rw [heval]
    rfl
  · rw [heval]
    intro h
    have hrel := (List.sorted_cons.mp h).1 ⟨"A", 5, some 110, "OK"⟩ (by simp)
    simp [specNullsLastLE, keyLt, expLastKey] at hrel

/-- C4 amended: `get_stock_by_batch` returns the batches sorted ascending by
`(expiryDate, batchNo)` with null expiry sorting FIRST (MySQL `ORDER BY ...
ASC` semantics); the walk takes `min(remainingNeeded, lot.remain)` from each
batch in that order and stops when the need is met: with lots
`A(expiry 110, remain 5)` and `B(expiry 201, remain 10)`, previewing 8 yields
`A:5` then `B:3`, and the allocation procedure leaves `A.remain = 0`,
`B.remain = 7`. -/
theorem fefo_selection_spec :
    (∀ (ledger : List Lot) (pid wid today : Nat),
      List.Sorted batchLE (get_stock_by_batch ledger pid wid today)) ∧
    preview_fefo_issue [c4lotB, c4lotA] 7 8 9 50
      = [⟨"A", 5, some 110, "OK"⟩, ⟨"B", 3, some 201, "OK"⟩] ∧
    sp_issue_material_fefo [c4lotA, c4lotB] 7 8 9
      = .ok ([⟨1, 7, 9, "A", 5, 0, some 110, false⟩,
              ⟨2, 7, 9, "B", 10, 7, some 201, false⟩],
             [⟨1, 5⟩, ⟨2, 3⟩]) := by
  refine ⟨?_, ?_, ?_⟩
  · intro ledger pid wid today
    exact List.sorted_insertionSort batchLE _
  · norm_num [preview_fefo_issue, get_stock_by_batch, stockRows, lotCond, groupStock,
      groupStockAux, sameGroup, c4lotA, c4lotB, List.insertionSort, List.orderedInsert,
      batchLE, mysqlAscKey, strLeB, charsLeB, expiryStatusOf, previewLoop,
      List.filter_cons, beq_iff_eq]
  · norm_num [sp_issue_material_fefo, stockRows, lotCond, c4lotA, c4lotB,
      List.insertionSort, List.orderedInsert, lotFefoLE, keyLt, expLastKey, strLeB,
      charsLeB, fefoWalk, applyConsumptions, List.filter_cons, beq_iff_eq]

/-! ## C5: kitting expiry inheritance -/

theorem sqlMin_eq_none_iff : ∀ xs : List Nat, sqlMin xs = none ↔ xs = []
  | [] => by simp [sqlMin]
  | x :: xs => by
      simp only [sqlMin]
      cases h : sqlMin xs <;> simp

theorem sqlMin_spec : ∀ (xs : List Nat) (m : Nat), sqlMin xs = some m →
    m ∈ xs ∧ ∀ x ∈ xs, m ≤ x
  | [] => by
      intro m h
      simp [sqlMin] at h
  | x :: xs => by
      intro m h
      simp only [sqlMin] at h
      cases hxs : sqlMin xs with
      | none =>
          rw [hxs] at h
          injection h with h'
          subst h'
          have hnil : xs = [] := (sqlMin_eq_none_iff xs).mp hxs
          subst hnil
          exact ⟨by simp, by simp⟩
      | some mTail =>
          rw [hxs] at h
          injection h with h'
          subst h'
          obtain ⟨hmem, hle⟩ := sqlMin_spec xs mTail hxs
          constructor
          · rcases le_total x mTail with hx | hx
            · simp [min_eq_left hx]
            · rw [min_eq_right hx]
              exact List.mem_cons_of_mem _ hmem
          · intro y hy
            rcases List.mem_cons.mp hy with rfl | hy'
            · exact min_le_left _ _
            · exact le_trans (min_le_right _ _) (hle y hy')

/-- C5: on completion the new inventory lot's expiry is, for KITTING orders,
the minimum expiry over the order's consumed lots that have one (`NULL` when
none has), and for CUTTING/REPACKING orders it is `NULL` — never inherited
from consumed lots. -/
theorem kitting_expiry_inheritance (db : DB) (orderId : Nat) (producedQty : Qty)
    (batchNo : String) (newLotId : Nat) (o : OrderRow) (db' : DB) (r : ReceiptRow)
    (ho : findOrder db orderId = some o)
    (hc : complete_production db orderId producedQty batchNo newLotId = .ok (db', r)) :
    ∃ newLot : Lot,
      db'.lots = db.lots ++ [newLot] ∧
      (o.bomType = .KITTING →
        newLot.expiredDate = sqlMin (consumedExpiries db orderId) ∧
        (newLot.expiredDate = none ↔ consumedExpiries db orderId = []) ∧
        ∀ e, newLot.expiredDate = some e →
          e ∈ consumedExpiries db orderId ∧ ∀ x ∈ consumedExpiries db orderId, e ≤ x) ∧
      (o.bomType ≠ .KITTING → newLot.expiredDate = none) := by
  unfold complete_production at hc
  rw [ho] at hc
  dsimp only at hc
  injection hc with h'
  have hdb : db' = { db with
      receipts := db.receipts ++ [⟨orderId, o.productId, producedQty, batchNo⟩],
      lots := db.lots ++ [⟨newLotId, o.productId, o.targetWarehouseId, batchNo,
        producedQty, producedQty,
        if o.bomType = .KITTING then kitMinExpiry db orderId else none, false⟩],
      orders := db.orders.map fun x =>
        if x.id = orderId then
          { x with producedQty := producedQty, status := .COMPLETED }
        else x } := (congrArg Prod.fst h').symm
  subst hdb
  refine ⟨_, rfl, ?_, ?_⟩
  · intro hk
    show (if o.bomType = .KITTING then kitMinExpiry db orderId else none)
        = sqlMin (consumedExpiries db orderId) ∧ _
    rw [if_pos hk]
    unfold kitMinExpiry
    refine ⟨rfl, sqlMin_eq_none_iff _, fun e he => sqlMin_spec _ e he⟩
  · intro hk
    show (if o.bomType = .KITTING then kitMinExpiry db orderId else none) = none
    rw [if_neg hk]

/-- C5 witness: completing the kitting order of `kittingDB`, whose consumed
lots carry expiries `{300, NULL, 215}`, creates an output lot with expiry
215. -/
theorem kitting_expiry_inheritance_witness :
    ∃ db' r, complete_production kittingDB 1 10 "K1" 99 = .ok (db', r) ∧
      consumedExpiries kittingDB 1 = [300, 215] ∧
      ∃ newLot : Lot, db'.lots = kittingDB.lots ++ [newLot] ∧
        newLot.expiredDate = some 215 := by
  have hok : (complete_production kittingDB 1 10 "K1" 99).toOption.isSome = true := by
    decide
  cases hc : complete_production kittingDB 1 10 "K1" 99 with
  | error e =>
      rw [hc] at hok
      simp [Except.toOption] at hok
  | ok p =>
      obtain ⟨db', r⟩ := p
      obtain ⟨newLot, hlots, hkit, -⟩ :=
        kitting_expiry_inheritance kittingDB 1 10 "K1" 99
          ⟨1, 11, 20, 10, 0, 9, 9, .KITTING, .IN_PROGRESS⟩ db' r rfl hc
      obtain ⟨hexpiry, -, -⟩ := hkit rfl
      refine ⟨db', r, rfl, by decide, newLot, hlots, ?_⟩
      rw [hexpiry]
      decide

/-! ## C8: the requirement bound is invariant -/

theorem inv_create (db : DB) (newOrderId : Nat) (bom : List BomLine)
    (bomHeaderId productId : Nat) (plannedQty : Qty) (bomType : BomType)
    (warehouseId targetWarehouseId : Nat)
    (hbom : ∀ d ∈ bom, 0 ≤ d.quantity ∧ 0 ≤ d.scrapRate) (hq : 0 ≤ plannedQty)
    (hinv : Inv db) :
    Inv (create_order db newOrderId bom bomHeaderId productId plannedQty bomType
      warehouseId targetWarehouseId) := by
  intro m hm
  simp only [create_order, List.mem_append] at hm
  rcases hm with hm | hm
  · exact hinv m hm
  · obtain ⟨d, hd, rfl⟩ := List.mem_map.mp hm
    refine ⟨le_refl 0, ?_⟩
    show (0:Qty) ≤ d.quantity * plannedQty * (1 + d.scrapRate / 100)
    have h1 : (0:Qty) ≤ d.quantity := (hbom d hd).1
    have h2 : (0:Qty) ≤ d.scrapRate / 100 := by
      have := (hbom d hd).2
      positivity
    have h3 : (0:Qty) ≤ 1 + d.scrapRate / 100 := by linarith
    exact mul_nonneg (mul_nonneg h1 hq) h3

theorem inv_issue (db : DB) (orderId : Nat) (hinv : Inv db) :
    Inv (issue_materials_tx db orderId).1 := by
  unfold issue_materials_tx
  cases h : issue_materials db orderId with
  | error e => exact hinv
  | ok p =>
      obtain ⟨db', ds⟩ := p
      dsimp only
      unfold issue_materials at h
      cases ho : findOrder db orderId with
      | none =>
          rw [ho] at h
          exact absurd h (by simp)
      | some o =>
          rw [ho] at h
          dsimp only at h
          cases hl : issueLoop o.warehouseId db.lots (get_order_materials db orderId) with
          | error e =>
              rw [hl] at h
              exact absurd h (by simp)
          | ok q =>
              obtain ⟨lots', ds'⟩ := q
              rw [hl] at h
              dsimp only at h
              injection h with h'
              have hdb : db' = { db with
                  lots := lots',
                  issueDetails := db.issueDetails ++ ds',
                  materials := db.materials.map fun m =>
                    if m.orderId = orderId then
                      { m with issuedQty := m.requiredQty, status := .ISSUED }
                    else m } := (congrArg Prod.fst h').symm
              subst hdb
              intro m hm
              obtain ⟨pre, hpre, hf⟩ := List.mem_map.mp hm
              by_cases hp : pre.orderId = orderId
              · rw [if_pos hp] at hf
                rw [← hf]
                have := hinv pre hpre
                exact ⟨le_trans this.1 this.2, le_refl _⟩
              · rw [if_neg hp] at hf
                rw [← hf]
                exact hinv pre hpre

theorem inv_complete (db : DB) (orderId : Nat) (producedQty : Qty) (batchNo : String)
    (newLotId : Nat) (db' : DB) (r : ReceiptRow)
    (h : complete_production db orderId producedQty batchNo newLotId = .ok (db', r))
    (hinv : Inv db) : Inv db' := by
  unfold complete_production at h
  cases ho : findOrder db orderId with
  | none =>
      rw [ho] at h
      exact absurd h (by simp)
  | some o =>
      rw [ho] at h
      dsimp only at h
      injection h with h'
      have hfst := congrArg Prod.fst h'
      dsimp only at hfst
      intro m hm
      rw [← hfst] at hm
      exact hinv m hm

/-- C8: for every material requirement, in every state reachable from a state
satisfying it, `0 ≤ issued_qty ≤ required_qty` — creation inserts
`issued_qty = 0` with a non-negative required quantity (the pages enforce
non-negative BOM quantities, scrap rates and planned quantities), issuance
sets `issued_qty = required_qty`, and the other commands leave the rows
untouched. -/
theorem requirement_bounds_invariant (start db : DB) (h0 : Inv start)
    (h : ReachableFrom start db) : Inv db := by
  induction h with
  | refl => exact h0
  | step _ hstep ih =>
      cases hstep with
      | create nid bom bhid pid q bt w tw hbom hq =>
          exact inv_create _ nid bom bhid pid q bt w tw hbom hq ih
      | issue oid => exact inv_issue _ oid ih
      | complete oid q b nid db'' r hc => exact inv_complete _ oid q b nid _ r hc ih
      | setStatus oid s =>
          intro m hm
          exact ih m hm

/-- C8 witness: the bound holds in `invWitnessDB` and is preserved by a
status-update step. -/
theorem requirement_bounds_invariant_witness :
    Inv invWitnessDB ∧ Inv (update_order_status invWitnessDB 1 .IN_PROGRESS) :=
  ⟨by unfold Inv; decide,
   requirement_bounds_invariant invWitnessDB _ (by unfold Inv; decide)
     (.step .refl (.setStatus invWitnessDB 1 .IN_PROGRESS))⟩

end Production
